import Mathlib

/-!
# Shallow embedding of the Hack assembler (src/assembler.py)

A Python string is modelled as a `List Char` (called `Str` below); the
cleaned source lines fed to both passes are modelled as a `List Str`.
Python dictionaries are modelled as association lists where assignment
prepends an entry, so that `List.lookup` sees the newest binding, exactly
like `dict.__getitem__` after `dict.__setitem__`.  A run that raises an
uncaught Python exception is modelled with `Except String`.
-/

set_option maxRecDepth 4096

abbrev Str := List Char

/-- `CommandType` enum of the source. -/
inductive CommandType where
  | A_COMMAND
  | C_COMMAND
  | L_COMMAND
deriving DecidableEq, Repr

/-- Python `str.strip()`: drop leading and trailing whitespace. -/
def pyStrip (s : Str) : Str :=
  ((s.dropWhile Char.isWhitespace).reverse.dropWhile Char.isWhitespace).reverse

/-- Second segment of Python `s.split(c)`, i.e. `s.split(c)[1]`:
the characters strictly between the first occurrence of `c` and the
next occurrence (or the end). Only used under a `c in s` guard. -/
def seg1 (c : Char) (s : Str) : Str :=
  ((s.dropWhile (fun x => x ≠ c)).drop 1).takeWhile (fun x => x ≠ c)

/-- Python `str.isdigit()` on ASCII text: nonempty and all decimal digits. -/
def pyIsdigit (s : Str) : Bool :=
  !s.isEmpty && s.all Char.isDigit

/-- Python `int()` on a string of decimal digits. -/
def pyInt (s : Str) : Nat :=
  s.foldl (fun a c => 10 * a + (c.toNat - 48)) 0

/-- `Parser.command_type` of the source: leading `@` gives an A-command,
a line wrapped in parentheses gives an L-command, anything else a
C-command. -/
def command_type (s : Str) : CommandType :=
  if s.head? = some '@' then CommandType.A_COMMAND
  else if s.head? = some '(' ∧ s.getLast? = some ')' then CommandType.L_COMMAND
  else CommandType.C_COMMAND

/-- `Parser.symbol` of the source: `s[1:]` for an A-command, `s[1:-1]` for an
L-command, `None` for a C-command. -/
def Parser.symbol (s : Str) : Option Str :=
  match command_type s with
  | CommandType.A_COMMAND => some (s.drop 1)
  | CommandType.L_COMMAND => some ((s.drop 1).dropLast)
  | CommandType.C_COMMAND => none

/-- `Parser.dest` of the source: the stripped text before the first `=`,
when an `=` is present. -/
def Parser.dest (s : Str) : Option Str :=
  if s.contains '=' then some (pyStrip (s.takeWhile (fun x => x ≠ '=')))
  else none

/-- `Parser.comp` of the source: take `split('=')[1]` when `=` occurs, then
`split(';')[0]` of that when `;` occurs, then strip. -/
def Parser.comp (s : Str) : Str :=
  let c1 := if s.contains '=' then seg1 '=' s else s
  let c2 := if c1.contains ';' then c1.takeWhile (fun x => x ≠ ';') else c1
  pyStrip c2

/-- `Parser.jump` of the source: the stripped text of `split(';')[1]`, when a
`;` is present. -/
def Parser.jump (s : Str) : Option Str :=
  if s.contains ';' then some (pyStrip (seg1 ';' s)) else none

/-- `Code.jumpMnemonics` lookup table of the source. -/
def jumpMnemonics : List (Str × Str) :=
  [("NULL".toList, "000".toList),
   ("JGT".toList, "001".toList),
   ("JEQ".toList, "010".toList),
   ("JGE".toList, "011".toList),
   ("JLT".toList, "100".toList),
   ("JNE".toList, "101".toList),
   ("JLE".toList, "110".toList),
   ("JMP".toList, "111".toList)]

/-- `Code.compMnemonics` lookup table of the source. -/
def compMnemonics : List (Str × Str) :=
  [("0".toList, "0101010".toList),
   ("1".toList, "0111111".toList),
   ("-1".toList, "0111010".toList),
   ("D".toList, "0001100".toList),
   ("A".toList, "0110000".toList),
   ("M".toList, "1110000".toList),
   ("!D".toList, "0001101".toList),
   ("!A".toList, "0110001".toList),
   ("!M".toList, "1110001".toList),
   ("-D".toList, "0001111".toList),
   ("-A".toList, "0110011".toList),
   ("-M".toList, "1110011".toList),
   ("D+1".toList, "0011111".toList),
   ("A+1".toList, "0110111".toList),
   ("M+1".toList, "1110111".toList),
   ("D-1".toList, "0001110".toList),
   ("A-1".toList, "0110010".toList),
   ("M-1".toList, "1110010".toList),
   ("D+A".toList, "0000010".toList),
   ("D+M".toList, "1000010".toList),
   ("D-A".toList, "0010011".toList),
   ("D-M".toList, "1010011".toList),
   ("A-D".toList, "0000111".toList),
   ("M-D".toList, "1000111".toList),
   ("D&A".toList, "0000000".toList),
   ("D&M".toList, "1000000".toList),
   ("D|A".toList, "0010101".toList),
   ("D|M".toList, "1010101".toList)]

/-- `Code.destMnemonics` lookup table of the source. -/
def destMnemonics : List (Str × Str) :=
  [("NULL".toList, "000".toList),
   ("M".toList, "001".toList),
   ("D".toList, "010".toList),
   ("MD".toList, "011".toList),
   ("A".toList, "100".toList),
   ("AM".toList, "101".toList),
   ("AD".toList, "110".toList),
   ("AMD".toList, "111".toList)]

/-- `Code.dest` of the source: `None` or the empty string is replaced by
`"NULL"` before the dictionary `get`, which yields `None` on a miss. -/
def Code.dest (mnemonic : Option Str) : Option Str :=
  let m := match mnemonic with
    | none => "NULL".toList
    | some s => if s = [] then "NULL".toList else s
  List.lookup m destMnemonics

/-- `Code.comp` of the source: a plain dictionary `get`. -/
def Code.comp (mnemonic : Str) : Option Str :=
  List.lookup mnemonic compMnemonics

/-- `Code.jump` of the source: `None` or the empty string is replaced by
`"NULL"` before the dictionary `get`. -/
def Code.jump (mnemonic : Option Str) : Option Str :=
  let m := match mnemonic with
    | none => "NULL".toList
    | some s => if s = [] then "NULL".toList else s
  List.lookup m jumpMnemonics

/-- Python `format(v, '015b')`: the minimal binary digit string of `v`
(`Nat.toDigits 2`), zero-filled on the left to a minimum width of 15.
Values whose binary form needs more than 15 digits are not truncated:
the result is simply longer. -/
def pyFormat015b (v : Nat) : Str :=
  let bits := Nat.toDigits 2 v
  List.replicate (15 - bits.length) '0' ++ bits

/-- `Assembler.format_a_instruction` of the source: `"0"` followed by
`format(address, '015b')`. -/
def format_a_instruction (address : Nat) : Str :=
  '0' :: pyFormat015b address

/-- `Assembler.format_c_instruction` of the source.  An unknown comp
mnemonic raises `ValueError`; an unknown dest or jump mnemonic leaves
`dest_bits` or `jump_bits` as Python `None`, so the string concatenation
`"111" + comp_bits + dest_bits + jump_bits` raises `TypeError`.  Both
uncaught exceptions are modelled as `Except.error`. -/
def format_c_instruction (comp : Str) (dest jump : Option Str) : Except String Str :=
  match Code.comp comp with
  | none => Except.error ("Unknown comp mnemonic: " ++ String.mk comp)
  | some compBits =>
    match Code.dest dest, Code.jump jump with
    | some destBits, some jumpBits =>
        Except.ok ("111".toList ++ compBits ++ destBits ++ jumpBits)
    | _, _ => Except.error "TypeError: can only concatenate str and NoneType"

/-- `SymbolTable` of the source: the name-to-address dictionary and the two
address cursors. -/
structure SymbolTable where
  symbolAddressMap : List (Str × Nat)
  programAddress : Nat
  dataAddress : Nat
deriving DecidableEq, Repr

/-- `SymbolTable.add_entry` of the source: dictionary assignment
(insert or overwrite). -/
def SymbolTable.add_entry (st : SymbolTable) (sym : Str) (address : Nat) : SymbolTable :=
  { st with symbolAddressMap := (sym, address) :: st.symbolAddressMap }

/-- `SymbolTable.contains` of the source. -/
def SymbolTable.contains (st : SymbolTable) (sym : Str) : Bool :=
  (List.lookup sym st.symbolAddressMap).isSome

/-- The `SymbolTable.__init__` pre-seeded dictionary: the five named
pointers, `R0`-`R15`, `SCREEN` and `KBD`; `programAddress` starts at 0 and
`dataAddress` at 16. -/
def initialSymbolTable : SymbolTable :=
  { symbolAddressMap :=
      [("SP".toList, 0), ("LCL".toList, 1), ("ARG".toList, 2),
       ("THIS".toList, 3), ("THAT".toList, 4),
       ("R0".toList, 0), ("R1".toList, 1), ("R2".toList, 2), ("R3".toList, 3),
       ("R4".toList, 4), ("R5".toList, 5), ("R6".toList, 6), ("R7".toList, 7),
       ("R8".toList, 8), ("R9".toList, 9), ("R10".toList, 10), ("R11".toList, 11),
       ("R12".toList, 12), ("R13".toList, 13), ("R14".toList, 14), ("R15".toList, 15),
       ("SCREEN".toList, 16384), ("KBD".toList, 24576)],
    programAddress := 0,
    dataAddress := 16 }

/-- One line of `Assembler.record_label_address` (pass 1): an L-command
binds `parser.symbol()` to the current `programAddress` without advancing
it; any other command advances `programAddress` and leaves the dictionary
alone. -/
def record_label_step (st : SymbolTable) (line : Str) : SymbolTable :=
  match command_type line with
  | CommandType.L_COMMAND =>
      st.add_entry ((Parser.symbol line).getD []) st.programAddress
  | _ => { st with programAddress := st.programAddress + 1 }

/-- `Assembler.record_label_address` of the source: pass 1 over all cleaned
lines, starting from the freshly initialised symbol table. -/
def record_label_address (lines : List Str) : SymbolTable :=
  lines.foldl record_label_step initialSymbolTable

/-- The variable-allocation path of `Assembler.parse`: read
`get_data_address`, `add_entry`, `increment_data_address`. -/
def SymbolTable.addVariable (st : SymbolTable) (sym : Str) : SymbolTable :=
  { st with symbolAddressMap := (sym, st.dataAddress) :: st.symbolAddressMap,
            dataAddress := st.dataAddress + 1 }

/-- The loop of `Assembler.parse` (pass 2), threading the symbol table and
collecting the emitted instructions; an exception anywhere aborts the run
with no output (the output file is only written after the loop). -/
def parse_lines (st : SymbolTable) : List Str → Except String (SymbolTable × List Str)
  | [] => Except.ok (st, [])
  | line :: rest =>
    match command_type line with
    | CommandType.L_COMMAND => parse_lines st rest
    | CommandType.A_COMMAND =>
      let sym := (Parser.symbol line).getD []
      if pyIsdigit sym then
        (parse_lines st rest).map
          (fun r => (r.1, format_a_instruction (pyInt sym) :: r.2))
      else
        match List.lookup sym st.symbolAddressMap with
        | none =>
          (parse_lines (st.addVariable sym) rest).map
            (fun r => (r.1, format_a_instruction st.dataAddress :: r.2))
        | some a =>
          (parse_lines st rest).map
            (fun r => (r.1, format_a_instruction a :: r.2))
    | CommandType.C_COMMAND =>
      match format_c_instruction (Parser.comp line) (Parser.dest line) (Parser.jump line) with
      | Except.error e => Except.error e
      | Except.ok instr =>
        (parse_lines st rest).map (fun r => (r.1, instr :: r.2))

/-- `Assembler.translate` of the source: pass 1 then pass 2 over the same
cleaned lines, returning the emitted binary lines. -/
def Assembler.translate (lines : List Str) : Except String (List Str) :=
  (parse_lines (record_label_address lines) lines).map Prod.snd

/-- `Except.isOk` as a plain Boolean. -/
def isOkE {ε α : Type} : Except ε α → Bool
  | Except.ok _ => true
  | Except.error _ => false

/-- Boolean membership of a string in a list of strings. -/
def memB (x : Str) : List Str → Bool
  | [] => false
  | y :: ys => x == y || memB x ys

/-- All strings in the list are pairwise distinct. -/
def allDistinctB : List Str → Bool
  | [] => true
  | x :: xs => !(memB x xs) && allDistinctB xs

/-- Decoding through a mnemonic table read in reverse: look the bit
pattern up among the values and return the associated mnemonic. -/
def revLookup (t : List (Str × Str)) (v : Str) : Option Str :=
  List.lookup v (t.map (fun p => (p.2, p.1)))

/-- C9: in each of the three encoding tables the mnemonics are pairwise
distinct and the bit patterns are pairwise distinct, and decoding any
entry's bit pattern through the reversed table returns exactly that
entry's mnemonic. -/
theorem encoding_tables_bijective :
    (allDistinctB (compMnemonics.map Prod.fst) = true ∧
     allDistinctB (compMnemonics.map Prod.snd) = true) ∧
    (allDistinctB (destMnemonics.map Prod.fst) = true ∧
     allDistinctB (destMnemonics.map Prod.snd) = true) ∧
    (allDistinctB (jumpMnemonics.map Prod.fst) = true ∧
     allDistinctB (jumpMnemonics.map Prod.snd) = true) ∧
    (compMnemonics.all (fun p => revLookup compMnemonics p.2 == some p.1) = true) ∧
    (destMnemonics.all (fun p => revLookup destMnemonics p.2 == some p.1) = true) ∧
    (jumpMnemonics.all (fun p => revLookup jumpMnemonics p.2 == some p.1) = true) := by
  decide

/-- C4: the code does not reject an address literal of 32768; it emits a
17-character line for it instead of failing, because `format(v, '015b')`
widens past 15 digits rather than failing. -/
theorem address_overflow_not_rejected :
    Assembler.translate ["@32768".toList] = Except.ok [format_a_instruction 32768] ∧
    (format_a_instruction 32768).length = 17 ∧
    format_a_instruction 32768 = "01000000000000000".toList := by
  exact ⟨rfl, rfl, rfl⟩

/-- C6 counterexample: the predefined symbol SCREEN is bound to 16384 in
the freshly initialised table, yet after pass 1 over the single line
`(SCREEN)` the same name resolves to 0 - a bound name's address was
changed by a later operation of the run. -/
theorem binding_overwritten_counterexample :
    List.lookup "SCREEN".toList initialSymbolTable.symbolAddressMap = some 16384 ∧
    List.lookup "SCREEN".toList
      (record_label_address ["(SCREEN)".toList]).symbolAddressMap = some 0 := by
  decide

/-- C8 counterexample: the line `(LOOP` (unterminated parenthesis) is
classified as an ordinary Compute command - the classifier reports no
failure - and translation then fails at the Encoder's comp lookup, not
during classification. -/
theorem malformed_label_counterexample :
    command_type "(LOOP".toList = CommandType.C_COMMAND ∧
    Assembler.translate ["(LOOP".toList] =
      Except.error "Unknown comp mnemonic: (LOOP" := by
  exact ⟨rfl, rfl⟩

/-- Modelled from the spec: the `w`-bit zero-padded binary representation
of `n`, most significant bit first, defined by bit extraction.  This is
the specification-side description of the A-instruction payload, to be
compared with the code's `format(v, '015b')`. -/
def specBinW : Nat → Nat → List Char
  | 0, _ => []
  | w + 1, n => specBinW w (n / 2) ++ [if n % 2 = 1 then '1' else '0']

/-- The minimal (no leading zero) binary digit list of `n`, empty for 0.
Reference form of `Nat.toDigitsCore` with the fuel removed. -/
def minBin : Nat → List Char
  | 0 => []
  | n + 1 => minBin ((n + 1) / 2) ++ [if (n + 1) % 2 = 1 then '1' else '0']
decreasing_by
  simp_wf
  omega

theorem specBinW_length (w : Nat) : ∀ n, (specBinW w n).length = w := by
  induction w with
  | zero => intro n; rfl
  | succ w ih => intro n; simp [specBinW, ih]

theorem specBinW_zero (w : Nat) : specBinW w 0 = List.replicate w '0' := by
  induction w with
  | zero => rfl
  | succ w ih => simp [specBinW, ih, List.replicate_succ']

theorem minBin_length_le (w : Nat) : ∀ n, n < 2 ^ w → (minBin n).length ≤ w := by
  induction w with
  | zero =>
    intro n hn
    interval_cases n
    simp [minBin]
  | succ w ih =>
    intro n hn
    cases n with
    | zero => simp [minBin]
    | succ m =>
      rw [minBin]
      have hp : (2:Nat) ^ (w + 1) = 2 ^ w * 2 := by rw [pow_succ]
      have hdiv : (m + 1) / 2 < 2 ^ w := by omega
      have := ih ((m + 1) / 2) hdiv
      simp [List.length_append]
      omega

theorem toDigitsCore_eq_minBin :
    ∀ (n fuel : Nat) (acc : List Char), 1 ≤ n → n ≤ fuel →
      Nat.toDigitsCore 2 fuel n acc = minBin n ++ acc := by
  intro n
  induction n using Nat.strong_induction_on with
  | _ n ih =>
    intro fuel acc h1 hf
    cases fuel with
    | zero => omega
    | succ f =>
      rw [Nat.toDigitsCore]
      by_cases hz : n / 2 = 0
      · have hn1 : n = 1 := by omega
        subst hn1
        simp [minBin, Nat.digitChar]
      · have h2 : 1 ≤ n / 2 := by omega
        have hlt : n / 2 < n := by omega
        have hle : n / 2 ≤ f := by omega
        rw [if_neg hz, ih (n / 2) hlt f (Nat.digitChar (n % 2) :: acc) h2 hle]
        obtain ⟨m, rfl⟩ : ∃ m, n = m + 1 := ⟨n - 1, by omega⟩
        rw [minBin]
        have hd : Nat.digitChar ((m + 1) % 2) =
            (if (m + 1) % 2 = 1 then '1' else '0') := by
          rcases Nat.mod_two_eq_zero_or_one (m + 1) with h | h <;>
            simp [h, Nat.digitChar]
        rw [hd]
        simp

theorem toDigits_eq_minBin (n : Nat) (h : 1 ≤ n) :
    Nat.toDigits 2 n = minBin n := by
  unfold Nat.toDigits
  rw [toDigitsCore_eq_minBin n (n + 1) [] h (by omega)]
  simp

theorem pad_minBin_specBinW :
    ∀ n w, 1 ≤ n → n < 2 ^ w →
      List.replicate (w - (minBin n).length) '0' ++ minBin n = specBinW w n := by
  intro n
  induction n using Nat.strong_induction_on with
  | _ n ih =>
    intro w h1 hw
    cases w with
    | zero => omega
    | succ w =>
      by_cases hz : n / 2 = 0
      · have hn1 : n = 1 := by omega
        subst hn1
        simp [minBin, specBinW, specBinW_zero, List.replicate_succ']
      · have h2 : 1 ≤ n / 2 := by omega
        have hlt : n / 2 < n := by omega
        have hp : (2:Nat) ^ (w + 1) = 2 ^ w * 2 := by rw [pow_succ]
        have hdiv : n / 2 < 2 ^ w := by omega
        have hlen : (minBin (n / 2)).length ≤ w := minBin_length_le w (n / 2) hdiv
        obtain ⟨m, rfl⟩ : ∃ m, n = m + 1 := ⟨n - 1, by omega⟩
        rw [minBin, specBinW]
        have harith : (w + 1) - ((minBin ((m + 1) / 2)).length + 1) =
            w - (minBin ((m + 1) / 2)).length := by omega
        rw [List.length_append]
        simp only [List.length_singleton]
        rw [harith, ← List.append_assoc]
        rw [ih ((m + 1) / 2) hlt w h2 hdiv]

/-- C3: for every literal value up to 32767, the emitted A-instruction is
the character `0` followed by the 15-bit zero-padded binary
representation of the value, 16 characters in all. -/
theorem address_literal_binary_encoding (v : Nat) (h : v ≤ 32767) :
    format_a_instruction v = '0' :: specBinW 15 v ∧
    (format_a_instruction v).length = 16 := by
  have hmain : format_a_instruction v = '0' :: specBinW 15 v := by
    by_cases hv : v = 0
    · subst hv; decide
    · have h1 : 1 ≤ v := by omega
      have h2 : v < 2 ^ 15 := by norm_num; omega
      unfold format_a_instruction pyFormat015b
      rw [toDigits_eq_minBin v h1, pad_minBin_specBinW v 15 h1 h2]
  refine ⟨hmain, ?_⟩
  rw [hmain]
  simp [specBinW_length]

/-- Witness for C3 at the literal 5. -/
theorem address_literal_binary_encoding_witness :
    5 ≤ 32767 ∧
    (format_a_instruction 5 = '0' :: specBinW 15 5 ∧
     (format_a_instruction 5).length = 16) :=
  ⟨by decide, address_literal_binary_encoding 5 (by decide)⟩

theorem exmap_ok {α β : Type} {f : α → β} {e : Except String α} {b : β}
    (h : Except.map f e = Except.ok b) : ∃ a, e = Except.ok a ∧ b = f a := by
  cases e with
  | error err => simp [Except.map] at h
  | ok a =>
    refine ⟨a, rfl, ?_⟩
    simp [Except.map] at h
    exact h.symm

theorem parse_lines_nil (st : SymbolTable) :
    parse_lines st [] = Except.ok (st, []) := rfl

theorem parse_lines_L (st : SymbolTable) (line : Str) (rest : List Str)
    (h : command_type line = CommandType.L_COMMAND) :
    parse_lines st (line :: rest) = parse_lines st rest := by
  rw [parse_lines, h]

theorem parse_lines_A_digit (st : SymbolTable) (line : Str) (rest : List Str)
    (h : command_type line = CommandType.A_COMMAND)
    (hd : pyIsdigit ((Parser.symbol line).getD []) = true) :
    parse_lines st (line :: rest) =
      (parse_lines st rest).map
        (fun r => (r.1, format_a_instruction (pyInt ((Parser.symbol line).getD [])) :: r.2)) := by
  rw [parse_lines, h]
  simp [hd]

theorem parse_lines_A_new (st : SymbolTable) (line : Str) (rest : List Str)
    (h : command_type line = CommandType.A_COMMAND)
    (hd : pyIsdigit ((Parser.symbol line).getD []) = false)
    (hl : List.lookup ((Parser.symbol line).getD []) st.symbolAddressMap = none) :
    parse_lines st (line :: rest) =
      (parse_lines (st.addVariable ((Parser.symbol line).getD [])) rest).map
        (fun r => (r.1, format_a_instruction st.dataAddress :: r.2)) := by
  rw [parse_lines, h]
  simp [hd, hl]

theorem parse_lines_A_bound (st : SymbolTable) (line : Str) (rest : List Str) (a : Nat)
    (h : command_type line = CommandType.A_COMMAND)
    (hd : pyIsdigit ((Parser.symbol line).getD []) = false)
    (hl : List.lookup ((Parser.symbol line).getD []) st.symbolAddressMap = some a) :
    parse_lines st (line :: rest) =
      (parse_lines st rest).map
        (fun r => (r.1, format_a_instruction a :: r.2)) := by
  rw [parse_lines, h]
  simp [hd, hl]

theorem parse_lines_C_ok (st : SymbolTable) (line : Str) (rest : List Str) (instr : Str)
    (h : command_type line = CommandType.C_COMMAND)
    (hf : format_c_instruction (Parser.comp line) (Parser.dest line) (Parser.jump line) =
      Except.ok instr) :
    parse_lines st (line :: rest) =
      (parse_lines st rest).map (fun r => (r.1, instr :: r.2)) := by
  rw [parse_lines, h, hf]

theorem parse_lines_C_err (st : SymbolTable) (line : Str) (rest : List Str) (e : String)
    (h : command_type line = CommandType.C_COMMAND)
    (hf : format_c_instruction (Parser.comp line) (Parser.dest line) (Parser.jump line) =
      Except.error e) :
    parse_lines st (line :: rest) = Except.error e := by
  rw [parse_lines, h, hf]

theorem lookup_cons_ne {sym k : Str} {v : Nat} {m : List (Str × Nat)} (h : sym ≠ k) :
    List.lookup sym ((k, v) :: m) = List.lookup sym m := by
  simp [List.lookup, beq_false_of_ne h]

theorem parse_preserves :
    ∀ (lines : List Str) (st st' : SymbolTable) (out : List Str) (sym : Str) (a : Nat),
      List.lookup sym st.symbolAddressMap = some a →
      parse_lines st lines = Except.ok (st', out) →
      List.lookup sym st'.symbolAddressMap = some a := by
  intro lines
  induction lines with
  | nil =>
    intro st st' out sym a hl hp
    rw [parse_lines_nil] at hp
    simp at hp
    obtain ⟨h1, h2⟩ := hp
    rw [← h1]
    exact hl
  | cons line rest ih =>
    intro st st' out sym a hl hp
    cases hct : command_type line with
    | L_COMMAND =>
      rw [parse_lines_L st line rest hct] at hp
      exact ih st st' out sym a hl hp
    | A_COMMAND =>
      by_cases hd : pyIsdigit ((Parser.symbol line).getD []) = true
      · rw [parse_lines_A_digit st line rest hct hd] at hp
        obtain ⟨⟨st2, out2⟩, hr, hb⟩ := exmap_ok hp
        have hst : st' = st2 := congrArg Prod.fst hb
        rw [hst]
        exact ih st st2 out2 sym a hl hr
      · have hd' : pyIsdigit ((Parser.symbol line).getD []) = false := by
          simpa using hd
        cases hlk : List.lookup ((Parser.symbol line).getD []) st.symbolAddressMap with
        | some b =>
          rw [parse_lines_A_bound st line rest b hct hd' hlk] at hp
          obtain ⟨⟨st2, out2⟩, hr, hb⟩ := exmap_ok hp
          have hst : st' = st2 := congrArg Prod.fst hb
          rw [hst]
          exact ih st st2 out2 sym a hl hr
        | none =>
          rw [parse_lines_A_new st line rest hct hd' hlk] at hp
          obtain ⟨⟨st2, out2⟩, hr, hb⟩ := exmap_ok hp
          have hst : st' = st2 := congrArg Prod.fst hb
          rw [hst]
          have hne : sym ≠ (Parser.symbol line).getD [] := by
            intro heq
            rw [heq] at hl
            rw [hl] at hlk
            cases hlk
          have hl2 : List.lookup sym (st.addVariable ((Parser.symbol line).getD [])).symbolAddressMap = some a := by
            unfold SymbolTable.addVariable
            simp only []
            rw [lookup_cons_ne hne]
            exact hl
          exact ih (st.addVariable ((Parser.symbol line).getD [])) st2 out2 sym a hl2 hr
    | C_COMMAND =>
      cases hf : format_c_instruction (Parser.comp line) (Parser.dest line) (Parser.jump line) with
      | error e =>
        rw [parse_lines_C_err st line rest e hct hf] at hp
        cases hp
      | ok instr =>
        rw [parse_lines_C_ok st line rest instr hct hf] at hp
        obtain ⟨⟨st2, out2⟩, hr, hb⟩ := exmap_ok hp
        have hst : st' = st2 := congrArg Prod.fst hb
        rw [hst]
        exact ih st st2 out2 sym a hl hr

/-- The keys of the symbol dictionary, newest first. -/
def keysOf (m : List (Str × Nat)) : List Str := m.map Prod.fst

theorem memB_keys_lookup :
    ∀ (m : List (Str × Nat)) (sym : Str),
      memB sym (keysOf m) = (List.lookup sym m).isSome := by
  intro m
  induction m with
  | nil => intro sym; rfl
  | cons p m ih =>
    intro sym
    obtain ⟨k, v⟩ := p
    show (sym == k || memB sym (keysOf m)) = _
    cases h : sym == k with
    | true => simp [List.lookup, h]
    | false => simp [List.lookup, h, ih]

/-- The A-command targets of `lines` that are neither all-digit literals
nor already known, listed in order of first use; `known` is the list of
names already bound.  This is the spec-side description of which names
pass 2 must allocate fresh variable addresses to, and in which order. -/
def novelTargets (known : List Str) : List Str → List Str
  | [] => []
  | line :: rest =>
    match command_type line with
    | CommandType.A_COMMAND =>
      let sym := (Parser.symbol line).getD []
      if pyIsdigit sym then novelTargets known rest
      else if memB sym known then novelTargets known rest
      else sym :: novelTargets (sym :: known) rest
    | _ => novelTargets known rest

theorem foldl_record_dataAddress :
    ∀ (lines : List Str) (st : SymbolTable),
      (lines.foldl record_label_step st).dataAddress = st.dataAddress := by
  intro lines
  induction lines with
  | nil => intro st; rfl
  | cons l ls ih =>
    intro st
    rw [List.foldl_cons, ih]
    cases hct : command_type l <;>
      simp [record_label_step, hct, SymbolTable.add_entry]

theorem pass1_dataAddress (lines : List Str) :
    (record_label_address lines).dataAddress = 16 := by
  unfold record_label_address
  rw [foldl_record_dataAddress]
  rfl

/-- Pass 2 binds the `k`-th novel A-command target (novel relative to the
table `st` it starts from) to `st.dataAddress + k`, and that binding is
still in force in the final table. -/
theorem novel_alloc :
    ∀ (lines : List Str) (st st' : SymbolTable) (out : List Str),
      parse_lines st lines = Except.ok (st', out) →
      ∀ k, k < (novelTargets (keysOf st.symbolAddressMap) lines).length →
      List.lookup ((novelTargets (keysOf st.symbolAddressMap) lines).getD k [])
        st'.symbolAddressMap = some (st.dataAddress + k) := by
  intro lines
  induction lines with
  | nil =>
    intro st st' out hp k hk
    simp [novelTargets] at hk
  | cons line rest ih =>
    intro st st' out hp k hk
    cases hct : command_type line with
    | L_COMMAND =>
      rw [parse_lines_L st line rest hct] at hp
      have hnt : novelTargets (keysOf st.symbolAddressMap) (line :: rest) =
          novelTargets (keysOf st.symbolAddressMap) rest := by
        simp [novelTargets, hct]
      rw [hnt] at hk ⊢
      exact ih st st' out hp k hk
    | C_COMMAND =>
      have hnt : novelTargets (keysOf st.symbolAddressMap) (line :: rest) =
          novelTargets (keysOf st.symbolAddressMap) rest := by
        simp [novelTargets, hct]
      rw [hnt] at hk ⊢
      cases hf : format_c_instruction (Parser.comp line) (Parser.dest line) (Parser.jump line) with
      | error e =>
        rw [parse_lines_C_err st line rest e hct hf] at hp
        cases hp
      | ok instr =>
        rw [parse_lines_C_ok st line rest instr hct hf] at hp
        obtain ⟨⟨st2, out2⟩, hr, hb⟩ := exmap_ok hp
        have hst : st' = st2 := congrArg Prod.fst hb
        rw [hst]
        exact ih st st2 out2 hr k hk
    | A_COMMAND =>
      by_cases hd : pyIsdigit ((Parser.symbol line).getD []) = true
      · have hnt : novelTargets (keysOf st.symbolAddressMap) (line :: rest) =
            novelTargets (keysOf st.symbolAddressMap) rest := by
          simp [novelTargets, hct, hd]
        rw [hnt] at hk ⊢
        rw [parse_lines_A_digit st line rest hct hd] at hp
        obtain ⟨⟨st2, out2⟩, hr, hb⟩ := exmap_ok hp
        have hst : st' = st2 := congrArg Prod.fst hb
        rw [hst]
        exact ih st st2 out2 hr k hk
      · have hd' : pyIsdigit ((Parser.symbol line).getD []) = false := by
          simpa using hd
        cases hlk : List.lookup ((Parser.symbol line).getD []) st.symbolAddressMap with
        | some b =>
          have hmem : memB ((Parser.symbol line).getD []) (keysOf st.symbolAddressMap) = true := by
            rw [memB_keys_lookup, hlk]
            rfl
          have hnt : novelTargets (keysOf st.symbolAddressMap) (line :: rest) =
              novelTargets (keysOf st.symbolAddressMap) rest := by
            simp [novelTargets, hct, hd', hmem]
          rw [hnt] at hk ⊢
          rw [parse_lines_A_bound st line rest b hct hd' hlk] at hp
          obtain ⟨⟨st2, out2⟩, hr, hb⟩ := exmap_ok hp
          have hst : st' = st2 := congrArg Prod.fst hb
          rw [hst]
          exact ih st st2 out2 hr k hk
        | none =>
          have hmem : memB ((Parser.symbol line).getD []) (keysOf st.symbolAddressMap) = false := by
            rw [memB_keys_lookup, hlk]
            rfl
          have hnt : novelTargets (keysOf st.symbolAddressMap) (line :: rest) =
              (Parser.symbol line).getD [] ::
                novelTargets ((Parser.symbol line).getD [] :: keysOf st.symbolAddressMap) rest := by
            simp [novelTargets, hct, hd', hmem]
          rw [hnt] at hk ⊢
          rw [parse_lines_A_new st line rest hct hd' hlk] at hp
          obtain ⟨⟨st2, out2⟩, hr, hb⟩ := exmap_ok hp
          have hst : st' = st2 := congrArg Prod.fst hb
          rw [hst]
          cases k with
          | zero =>
            have h0 : List.lookup ((Parser.symbol line).getD [])
                (st.addVariable ((Parser.symbol line).getD [])).symbolAddressMap =
                some st.dataAddress := by
              simp [SymbolTable.addVariable, List.lookup]
            have hpres := parse_preserves rest (st.addVariable ((Parser.symbol line).getD []))
              st2 out2 ((Parser.symbol line).getD []) st.dataAddress h0 hr
            simpa using hpres
          | succ k =>
            have hkeys : keysOf (st.addVariable ((Parser.symbol line).getD [])).symbolAddressMap =
                (Parser.symbol line).getD [] :: keysOf st.symbolAddressMap := by
              simp [SymbolTable.addVariable, keysOf]
            have hk' : k < (novelTargets
                ((Parser.symbol line).getD [] :: keysOf st.symbolAddressMap) rest).length := by
              simpa using hk
            have := ih (st.addVariable ((Parser.symbol line).getD [])) st2 out2 hr k
              (by rw [hkeys]; exact hk')
            rw [hkeys] at this
            have hda : (st.addVariable ((Parser.symbol line).getD [])).dataAddress =
                st.dataAddress + 1 := rfl
            rw [hda] at this
            have harith : st.dataAddress + 1 + k = st.dataAddress + (k + 1) := by omega
            rw [harith] at this
            simpa using this

/-- C1: in pass 2, starting from the pass-1 table (whose variable cursor
is still 16), the `k`-th A-command target that is neither an all-digit
literal nor already bound at its first use resolves to address `16 + k`
in the final symbol table: novel variables get 16, 17, ... in strict
first-use order, wherever they sit relative to labels. -/
theorem variable_first_use_allocation (lines : List Str) (k : Nat)
    (h1 : isOkE (parse_lines (record_label_address lines) lines) = true)
    (h2 : k < (novelTargets (keysOf (record_label_address lines).symbolAddressMap) lines).length) :
    (parse_lines (record_label_address lines) lines).map
      (fun r => List.lookup
        ((novelTargets (keysOf (record_label_address lines).symbolAddressMap) lines).getD k [])
        r.1.symbolAddressMap) = Except.ok (some (16 + k)) := by
  cases hp : parse_lines (record_label_address lines) lines with
  | error e =>
    rw [hp] at h1
    cases h1
  | ok r =>
    obtain ⟨st', out⟩ := r
    have hmain := novel_alloc lines (record_label_address lines) st' out hp k h2
    rw [pass1_dataAddress lines] at hmain
    simp only [Except.map]
    exact congrArg Except.ok hmain

/-- Witness for C1 on the program `(LOOP)`, `@i`, `D=M`, `@j`: the novel
targets `i` and `j` get addresses 16 and 17. -/
theorem variable_first_use_allocation_witness :
    (isOkE (parse_lines
        (record_label_address ["(LOOP)".toList, "@i".toList, "D=M".toList, "@j".toList])
        ["(LOOP)".toList, "@i".toList, "D=M".toList, "@j".toList]) = true ∧
      0 < (novelTargets
        (keysOf (record_label_address
          ["(LOOP)".toList, "@i".toList, "D=M".toList, "@j".toList]).symbolAddressMap)
        ["(LOOP)".toList, "@i".toList, "D=M".toList, "@j".toList]).length) ∧
    (parse_lines
        (record_label_address ["(LOOP)".toList, "@i".toList, "D=M".toList, "@j".toList])
        ["(LOOP)".toList, "@i".toList, "D=M".toList, "@j".toList]).map
      (fun r => List.lookup
        ((novelTargets
          (keysOf (record_label_address
            ["(LOOP)".toList, "@i".toList, "D=M".toList, "@j".toList]).symbolAddressMap)
          ["(LOOP)".toList, "@i".toList, "D=M".toList, "@j".toList]).getD 0 [])
        r.1.symbolAddressMap) = Except.ok (some (16 + 0)) ∧
    (parse_lines
        (record_label_address ["(LOOP)".toList, "@i".toList, "D=M".toList, "@j".toList])
        ["(LOOP)".toList, "@i".toList, "D=M".toList, "@j".toList]).map
      (fun r => List.lookup
        ((novelTargets
          (keysOf (record_label_address
            ["(LOOP)".toList, "@i".toList, "D=M".toList, "@j".toList]).symbolAddressMap)
          ["(LOOP)".toList, "@i".toList, "D=M".toList, "@j".toList]).getD 1 [])
        r.1.symbolAddressMap) = Except.ok (some (16 + 1)) :=
  ⟨⟨by decide, by decide⟩,
   variable_first_use_allocation _ 0 (by decide) (by decide),
   variable_first_use_allocation _ 1 (by decide) (by decide)⟩

/-- C2: in pass 1 an L-command binds `parser.symbol()` to the current
instruction-address counter and leaves the counter alone; any other
command only advances the counter; hence appending two label lines to any
program binds both their names to the same address, namely the counter
value reached after the preceding lines. -/
theorem pass1_step_behavior :
    (∀ (st : SymbolTable) (line : Str), command_type line = CommandType.L_COMMAND →
      record_label_step st line =
        { st with symbolAddressMap :=
            ((Parser.symbol line).getD [], st.programAddress) :: st.symbolAddressMap }) ∧
    (∀ (st : SymbolTable) (line : Str), command_type line ≠ CommandType.L_COMMAND →
      record_label_step st line = { st with programAddress := st.programAddress + 1 }) ∧
    (∀ (pre : List Str) (l1 l2 : Str),
      command_type l1 = CommandType.L_COMMAND → command_type l2 = CommandType.L_COMMAND →
      record_label_address (pre ++ [l1, l2]) =
        { record_label_address pre with symbolAddressMap :=
            ((Parser.symbol l2).getD [], (record_label_address pre).programAddress) ::
            ((Parser.symbol l1).getD [], (record_label_address pre).programAddress) ::
            (record_label_address pre).symbolAddressMap } ) := by
  refine ⟨?_, ?_, ?_⟩
  · intro st line h
    simp [record_label_step, h, SymbolTable.add_entry]
  · intro st line h
    cases hct : command_type line with
    | L_COMMAND => exact absurd hct h
    | A_COMMAND => simp [record_label_step, hct]
    | C_COMMAND => simp [record_label_step, hct]
  · intro pre l1 l2 h1 h2
    unfold record_label_address
    rw [List.foldl_append]
    simp [record_label_step, h1, h2, SymbolTable.add_entry]

/-- Witness for C2: after the single C-command `D=M`, the labels `(A)` and
`(B)` on consecutive lines are both bound to the same address. -/
theorem pass1_step_behavior_witness :
    command_type "(A)".toList = CommandType.L_COMMAND ∧
    command_type "(B)".toList = CommandType.L_COMMAND ∧
    record_label_address (["D=M".toList] ++ ["(A)".toList, "(B)".toList]) =
      { record_label_address ["D=M".toList] with symbolAddressMap :=
          ((Parser.symbol "(B)".toList).getD [],
            (record_label_address ["D=M".toList]).programAddress) ::
          ((Parser.symbol "(A)".toList).getD [],
            (record_label_address ["D=M".toList]).programAddress) ::
          (record_label_address ["D=M".toList]).symbolAddressMap } :=
  ⟨by decide, by decide,
   pass1_step_behavior.2.2 ["D=M".toList] "(A)".toList "(B)".toList (by decide) (by decide)⟩

/-- C5: a comp, dest or jump mnemonic that is missing from its table
(after the None/empty-to-NULL normalisation) makes
`format_c_instruction` fail, and any such failure on a C-command aborts
the pass-2 run with that error. -/
theorem unknown_mnemonic_fails :
    (∀ (c : Str) (d j : Option Str),
      Code.comp c = none ∨ Code.dest d = none ∨ Code.jump j = none →
      isOkE (format_c_instruction c d j) = false) ∧
    (∀ (st : SymbolTable) (line : Str) (rest : List Str) (e : String),
      command_type line = CommandType.C_COMMAND →
      format_c_instruction (Parser.comp line) (Parser.dest line) (Parser.jump line) =
        Except.error e →
      parse_lines st (line :: rest) = Except.error e) := by
  constructor
  · intro c d j h
    unfold format_c_instruction
    cases hc : Code.comp c with
    | none => rfl
    | some cb =>
      cases hdd : Code.dest d with
      | none => cases hjj : Code.jump j <;> rfl
      | some db =>
        cases hjj : Code.jump j with
        | none => rfl
        | some jb =>
          rcases h with h | h | h
          · rw [h] at hc; cases hc
          · rw [h] at hdd; cases hdd
          · rw [h] at hjj; cases hjj
  · intro st line rest e hct hf
    exact parse_lines_C_err st line rest e hct hf

/-- Witness for C5: `X` is not a dest mnemonic, so `format_c_instruction`
fails on it, and the line `X=D` aborts pass 2 with the concatenation
failure. -/
theorem unknown_mnemonic_fails_witness :
    Code.dest (some "X".toList) = none ∧
    isOkE (format_c_instruction "D".toList (some "X".toList) none) = false ∧
    command_type "X=D".toList = CommandType.C_COMMAND ∧
    parse_lines initialSymbolTable ["X=D".toList] =
      Except.error "TypeError: can only concatenate str and NoneType" :=
  ⟨by decide, unknown_mnemonic_fails.1 "D".toList (some "X".toList) none
      (Or.inr (Or.inl (by decide))), by decide,
   unknown_mnemonic_fails.2 initialSymbolTable "X=D".toList [] _ (by decide) rfl⟩

/-- C6 as amended: once a name is bound, no pass-2 operation changes the
address it resolves to; a pass-1 L-command, however, rebinds its name to
the current instruction address even when the name is already bound
(which is what the counterexample exhibits for SCREEN). -/
theorem bound_names_stable_in_pass2 :
    (∀ (st : SymbolTable) (lines : List Str) (sym : Str) (a : Nat),
      List.lookup sym st.symbolAddressMap = some a →
      isOkE (parse_lines st lines) = true →
      (parse_lines st lines).map (fun r => List.lookup sym r.1.symbolAddressMap) =
        Except.ok (some a)) ∧
    (∀ (st : SymbolTable) (line : Str), command_type line = CommandType.L_COMMAND →
      List.lookup ((Parser.symbol line).getD [])
        (record_label_step st line).symbolAddressMap = some st.programAddress) := by
  constructor
  · intro st lines sym a hl hok
    cases hp : parse_lines st lines with
    | error e => rw [hp] at hok; cases hok
    | ok r =>
      obtain ⟨st', out⟩ := r
      simp only [Except.map]
      exact congrArg Except.ok (parse_preserves lines st st' out sym a hl hp)
  · intro st line h
    simp [record_label_step, h, SymbolTable.add_entry, List.lookup]

/-- Witness for the amended C6: `SP` stays bound to 0 through pass 2 over
`@SP`, and the label line `(SCREEN)` rebinds `SCREEN` to the current
instruction address. -/
theorem bound_names_stable_in_pass2_witness :
    List.lookup "SP".toList initialSymbolTable.symbolAddressMap = some 0 ∧
    isOkE (parse_lines initialSymbolTable ["@SP".toList]) = true ∧
    (parse_lines initialSymbolTable ["@SP".toList]).map
      (fun r => List.lookup "SP".toList r.1.symbolAddressMap) = Except.ok (some 0) ∧
    command_type "(SCREEN)".toList = CommandType.L_COMMAND ∧
    List.lookup ((Parser.symbol "(SCREEN)".toList).getD [])
      (record_label_step initialSymbolTable "(SCREEN)".toList).symbolAddressMap =
      some initialSymbolTable.programAddress :=
  ⟨by decide, by decide,
   bound_names_stable_in_pass2.1 initialSymbolTable ["@SP".toList] "SP".toList 0
     (by decide) (by decide),
   by decide,
   bound_names_stable_in_pass2.2 initialSymbolTable "(SCREEN)".toList (by decide)⟩

theorem foldl_record_no_label_lookup :
    ∀ (post : List Str) (st : SymbolTable) (n : Str),
      (∀ x ∈ post, command_type x = CommandType.L_COMMAND → (Parser.symbol x).getD [] ≠ n) →
      List.lookup n (post.foldl record_label_step st).symbolAddressMap =
        List.lookup n st.symbolAddressMap := by
  intro post
  induction post with
  | nil => intro st n h; rfl
  | cons l ls ih =>
    intro st n h
    rw [List.foldl_cons]
    rw [ih _ n (fun x hx hc => h x (List.mem_cons_of_mem l hx) hc)]
    cases hct : command_type l with
    | L_COMMAND =>
      have hne : (Parser.symbol l).getD [] ≠ n := h l (List.mem_cons_self l ls) hct
      simp only [record_label_step, hct, SymbolTable.add_entry]
      rw [lookup_cons_ne (Ne.symm hne)]
    | A_COMMAND => simp [record_label_step, hct]
    | C_COMMAND => simp [record_label_step, hct]

/-- C7: when a source program contains a label whose name is a predefined
symbol (and no later label reuses that name), pass 1 binds the name to
the instruction address reached after the preceding lines, and every
pass-2 resolution of that name returns this label address rather than the
predefined one. -/
theorem label_shadows_predefined (pre : List Str) (l : Str) (post : List Str)
    (h1 : command_type l = CommandType.L_COMMAND)
    (h2 : ∀ x ∈ post, command_type x = CommandType.L_COMMAND →
      (Parser.symbol x).getD [] ≠ (Parser.symbol l).getD [])
    (_h3 : (List.lookup ((Parser.symbol l).getD [])
      initialSymbolTable.symbolAddressMap).isSome = true) :
    List.lookup ((Parser.symbol l).getD [])
      (record_label_address (pre ++ l :: post)).symbolAddressMap =
      some ((record_label_address pre).programAddress) ∧
    (isOkE (parse_lines (record_label_address (pre ++ l :: post)) (pre ++ l :: post)) = true →
      (parse_lines (record_label_address (pre ++ l :: post)) (pre ++ l :: post)).map
        (fun r => List.lookup ((Parser.symbol l).getD []) r.1.symbolAddressMap) =
        Except.ok (some ((record_label_address pre).programAddress))) := by
  have hkey : List.lookup ((Parser.symbol l).getD [])
      (record_label_address (pre ++ l :: post)).symbolAddressMap =
      some ((record_label_address pre).programAddress) := by
    unfold record_label_address
    rw [show pre ++ l :: post = (pre ++ [l]) ++ post by simp]
    rw [List.foldl_append]
    rw [foldl_record_no_label_lookup post _ _ h2]
    rw [List.foldl_append]
    simp [record_label_step, h1, SymbolTable.add_entry, List.lookup]
  refine ⟨hkey, fun hok => ?_⟩
  cases hp : parse_lines (record_label_address (pre ++ l :: post)) (pre ++ l :: post) with
  | error e => rw [hp] at hok; cases hok
  | ok r =>
    obtain ⟨st', out⟩ := r
    simp only [Except.map]
    exact congrArg Except.ok
      (parse_preserves (pre ++ l :: post) (record_label_address (pre ++ l :: post))
        st' out ((Parser.symbol l).getD [])
        ((record_label_address pre).programAddress) hkey hp)

/-- Witness for C7: the program `(SCREEN)`, `@SCREEN` binds `SCREEN` to
instruction address 0 in pass 1, and pass 2 resolves it to 0, not 16384. -/
theorem label_shadows_predefined_witness :
    command_type "(SCREEN)".toList = CommandType.L_COMMAND ∧
    List.lookup ((Parser.symbol "(SCREEN)".toList).getD [])
      (record_label_address (([] : List Str) ++ "(SCREEN)".toList :: ["@SCREEN".toList])).symbolAddressMap =
      some ((record_label_address ([] : List Str)).programAddress) ∧
    (parse_lines (record_label_address (([] : List Str) ++ "(SCREEN)".toList :: ["@SCREEN".toList]))
        (([] : List Str) ++ "(SCREEN)".toList :: ["@SCREEN".toList])).map
      (fun r => List.lookup ((Parser.symbol "(SCREEN)".toList).getD []) r.1.symbolAddressMap) =
      Except.ok (some ((record_label_address ([] : List Str)).programAddress)) :=
  ⟨by decide,
   (label_shadows_predefined [] "(SCREEN)".toList ["@SCREEN".toList]
     (by decide) (by decide) (by decide)).1,
   (label_shadows_predefined [] "(SCREEN)".toList ["@SCREEN".toList]
     (by decide) (by decide) (by decide)).2 (by decide)⟩

theorem dropWhile_append_last {l : List Char} {c : Char} (hc : c.isWhitespace = false) :
    ∃ u, (l ++ [c]).dropWhile Char.isWhitespace = u ++ [c] := by
  induction l with
  | nil => exact ⟨[], by simp [List.dropWhile_cons, hc]⟩
  | cons a l ih =>
    by_cases ha : a.isWhitespace = true
    · simpa [List.dropWhile_cons, ha] using ih
    · exact ⟨a :: l, by simp [List.dropWhile_cons, ha]⟩

theorem pyStrip_head {t : List Char} {c : Char} (hc : c.isWhitespace = false) :
    ∃ u, pyStrip (c :: t) = c :: u := by
  unfold pyStrip
  rw [List.dropWhile_cons, if_neg (by simp [hc])]
  rw [List.reverse_cons]
  obtain ⟨u, hu⟩ := dropWhile_append_last (l := t.reverse) hc
  rw [hu, List.reverse_append]
  exact ⟨u.reverse, rfl⟩

theorem lookup_paren_none :
    ∀ (t : List (Str × Str)), (t.all (fun p => p.1.head? != some '(')) = true →
      ∀ k : Str, k.head? = some '(' → List.lookup k t = none := by
  intro t
  induction t with
  | nil => intro _ k _; rfl
  | cons p t ih =>
    intro ht k hk
    obtain ⟨a, b⟩ := p
    rw [List.all_cons, Bool.and_eq_true] at ht
    obtain ⟨h1, h2⟩ := ht
    have hne : k ≠ a := by
      intro he
      subst he
      rw [hk] at h1
      simp at h1
    show List.lookup k ((a, b) :: t) = none
    rw [List.lookup, beq_false_of_ne hne]
    exact ih h2 k hk

theorem parse_isOk_C_fail (st : SymbolTable) (line : Str) (rest : List Str)
    (hct : command_type line = CommandType.C_COMMAND)
    (hf : isOkE (format_c_instruction (Parser.comp line) (Parser.dest line)
      (Parser.jump line)) = false) :
    isOkE (parse_lines st (line :: rest)) = false := by
  cases hfc : format_c_instruction (Parser.comp line) (Parser.dest line) (Parser.jump line) with
  | error e => rw [parse_lines_C_err st line rest e hct hfc]; rfl
  | ok instr => rw [hfc] at hf; cases hf

/-- C8 as amended: a cleaned line that begins with `(` but does not end
with `)` is classified as a Compute command (classification itself never
fails), and pass 2 then fails fatally on it at Encoder lookup time: either
its comp field or its dest field starts with `(`, which no mnemonic
table contains. -/
theorem malformed_label_fails (line : Str) (st : SymbolTable) (rest : List Str)
    (h1 : line.head? = some '(') (h2 : line.getLast? ≠ some ')') :
    command_type line = CommandType.C_COMMAND ∧
    isOkE (parse_lines st (line :: rest)) = false := by
  have hct : command_type line = CommandType.C_COMMAND := by
    unfold command_type
    rw [h1]
    rw [if_neg (by simp), if_neg (by simp [h2])]
  obtain ⟨t, rfl⟩ : ∃ t, line = '(' :: t := by
    cases line with
    | nil => cases h1
    | cons c t =>
      refine ⟨t, ?_⟩
      have : c = '(' := by simpa using h1
      rw [this]
  have hcompAll : (compMnemonics.all (fun p => p.1.head? != some '(')) = true := by decide
  have hdestAll : (destMnemonics.all (fun p => p.1.head? != some '(')) = true := by decide
  refine ⟨hct, ?_⟩
  cases he : ('(' :: t).contains '=' with
  | true =>
    have htw : ('(' :: t).takeWhile (fun x => x ≠ '=') =
        '(' :: t.takeWhile (fun x => x ≠ '=') := by
      rw [List.takeWhile_cons, if_pos (by decide)]
    obtain ⟨u, hu⟩ := pyStrip_head (t := t.takeWhile (fun x => x ≠ '=')) (c := '(') (by decide)
    have hdest : Parser.dest ('(' :: t) = some ('(' :: u) := by
      unfold Parser.dest
      rw [if_pos he, htw, hu]
    have hcd : Code.dest (Parser.dest ('(' :: t)) = none := by
      rw [hdest]
      have hred : Code.dest (some ('(' :: u)) = List.lookup ('(' :: u) destMnemonics := by
        unfold Code.dest
        simp
      rw [hred]
      exact lookup_paren_none destMnemonics hdestAll ('(' :: u) rfl
    have hff : isOkE (format_c_instruction (Parser.comp ('(' :: t))
        (Parser.dest ('(' :: t)) (Parser.jump ('(' :: t))) = false := by
      unfold format_c_instruction
      cases hcc : Code.comp (Parser.comp ('(' :: t)) with
      | none => rfl
      | some cb =>
        rw [hcd]
        cases Code.jump (Parser.jump ('(' :: t)) <;> rfl
    exact parse_isOk_C_fail st ('(' :: t) rest hct hff
  | false =>
    have hcomphead : (Parser.comp ('(' :: t)).head? = some '(' := by
      unfold Parser.comp
      rw [he]
      simp only [Bool.false_eq_true, if_false]
      cases hsemi : ('(' :: t).contains ';' with
      | true =>
        rw [if_pos rfl]
        have htw : ('(' :: t).takeWhile (fun x => x ≠ ';') =
            '(' :: t.takeWhile (fun x => x ≠ ';') := by
          rw [List.takeWhile_cons, if_pos (by decide)]
        rw [htw]
        obtain ⟨u, hu⟩ := pyStrip_head (t := t.takeWhile (fun x => x ≠ ';')) (c := '(') (by decide)
        rw [hu]
        rfl
      | false =>
        rw [if_neg (by simp)]
        obtain ⟨u, hu⟩ := pyStrip_head (t := t) (c := '(') (by decide)
        rw [hu]
        rfl
    have hcc : Code.comp (Parser.comp ('(' :: t)) = none :=
      lookup_paren_none compMnemonics hcompAll _ hcomphead
    have hff : isOkE (format_c_instruction (Parser.comp ('(' :: t))
        (Parser.dest ('(' :: t)) (Parser.jump ('(' :: t))) = false := by
      unfold format_c_instruction
      rw [hcc]
      rfl
    exact parse_isOk_C_fail st ('(' :: t) rest hct hff

/-- Witness for the amended C8 at the line `(LOOP`. -/
theorem malformed_label_fails_witness :
    "(LOOP".toList.head? = some '(' ∧
    "(LOOP".toList.getLast? ≠ some ')' ∧
    (command_type "(LOOP".toList = CommandType.C_COMMAND ∧
     isOkE (parse_lines initialSymbolTable ["(LOOP".toList]) = false) :=
  ⟨by decide, by decide,
   malformed_label_fails "(LOOP".toList initialSymbolTable [] (by decide) (by decide)⟩

/-- C10: an A-command target is taken as a numeric literal exactly when
Python's `isdigit` accepts it (nonempty, all decimal digits): such a
target is encoded directly and the table is untouched; every other
target - including ones that merely contain digits, and the empty target
of a bare `@` - goes through the symbol table: if bound it resolves to
its bound address, and if unbound it is allocated the current variable
address, which the emitted instruction encodes. -/
theorem address_target_literal_vs_symbolic :
    (∀ (st : SymbolTable) (line : Str) (rest : List Str),
      command_type line = CommandType.A_COMMAND →
      pyIsdigit ((Parser.symbol line).getD []) = true →
      parse_lines st (line :: rest) =
        (parse_lines st rest).map
          (fun r => (r.1, format_a_instruction (pyInt ((Parser.symbol line).getD [])) :: r.2))) ∧
    (∀ (st : SymbolTable) (line : Str) (rest : List Str) (a : Nat),
      command_type line = CommandType.A_COMMAND →
      pyIsdigit ((Parser.symbol line).getD []) = false →
      List.lookup ((Parser.symbol line).getD []) st.symbolAddressMap = some a →
      parse_lines st (line :: rest) =
        (parse_lines st rest).map (fun r => (r.1, format_a_instruction a :: r.2))) ∧
    (∀ (st : SymbolTable) (line : Str) (rest : List Str),
      command_type line = CommandType.A_COMMAND →
      pyIsdigit ((Parser.symbol line).getD []) = false →
      List.lookup ((Parser.symbol line).getD []) st.symbolAddressMap = none →
      isOkE (parse_lines st (line :: rest)) = true →
      (parse_lines st (line :: rest)).map
        (fun r => (List.lookup ((Parser.symbol line).getD []) r.1.symbolAddressMap,
          r.2.head?)) =
        Except.ok (some st.dataAddress, some (format_a_instruction st.dataAddress))) := by
  refine ⟨fun st line rest h hd => parse_lines_A_digit st line rest h hd,
    fun st line rest a h hd hl => parse_lines_A_bound st line rest a h hd hl,
    ?_⟩
  intro st line rest h hd hl hok
  rw [parse_lines_A_new st line rest h hd hl] at hok ⊢
  cases hp : parse_lines (st.addVariable ((Parser.symbol line).getD [])) rest with
  | error e =>
    rw [hp] at hok
    cases hok
  | ok r =>
    obtain ⟨st2, out2⟩ := r
    simp only [Except.map]
    have h0 : List.lookup ((Parser.symbol line).getD [])
        (st.addVariable ((Parser.symbol line).getD [])).symbolAddressMap =
        some st.dataAddress := by
      simp [SymbolTable.addVariable, List.lookup]
    have hpres := parse_preserves rest (st.addVariable ((Parser.symbol line).getD []))
      st2 out2 ((Parser.symbol line).getD []) st.dataAddress h0 hp
    simp [hpres]

/-- Witness for C10: `@5` is encoded literally; `@SP` resolves through the
table to 0; the bare `@` line has the empty target, which is not a digit
string, so it is allocated the next variable address 16. -/
theorem address_target_literal_vs_symbolic_witness :
    (command_type "@5".toList = CommandType.A_COMMAND ∧
      pyIsdigit ((Parser.symbol "@5".toList).getD []) = true ∧
      parse_lines initialSymbolTable ["@5".toList] =
        (parse_lines initialSymbolTable []).map
          (fun r => (r.1, format_a_instruction (pyInt ((Parser.symbol "@5".toList).getD [])) :: r.2))) ∧
    (command_type "@SP".toList = CommandType.A_COMMAND ∧
      pyIsdigit ((Parser.symbol "@SP".toList).getD []) = false ∧
      parse_lines initialSymbolTable ["@SP".toList] =
        (parse_lines initialSymbolTable []).map
          (fun r => (r.1, format_a_instruction 0 :: r.2))) ∧
    (command_type "@".toList = CommandType.A_COMMAND ∧
      pyIsdigit ((Parser.symbol "@".toList).getD []) = false ∧
      List.lookup ((Parser.symbol "@".toList).getD [])
        initialSymbolTable.symbolAddressMap = none ∧
      (parse_lines initialSymbolTable ["@".toList]).map
        (fun r => (List.lookup ((Parser.symbol "@".toList).getD []) r.1.symbolAddressMap,
          r.2.head?)) =
        Except.ok (some initialSymbolTable.dataAddress,
          some (format_a_instruction initialSymbolTable.dataAddress))) :=
  ⟨⟨by decide, by decide,
    address_target_literal_vs_symbolic.1 initialSymbolTable "@5".toList [] (by decide) (by decide)⟩,
   ⟨by decide, by decide,
    address_target_literal_vs_symbolic.2.1 initialSymbolTable "@SP".toList [] 0
      (by decide) (by decide) (by decide)⟩,
   ⟨by decide, by decide, by decide,
    address_target_literal_vs_symbolic.2.2 initialSymbolTable "@".toList []
      (by decide) (by decide) (by decide) (by decide)⟩⟩
